import Mathlib

/-!
Verification development for the SegCLIP grouping/reconstruction core
(`src/modules/module_seg_vit.py`).

Shallow embedding conventions:
* Tensors are total functions on `Fin`-indexed axes with rational entries
  (exact arithmetic stands in for floating point).
* The host library's `exp` (used by `softmax` and `sigmoid`) is carried as an
  abstract function parameter `e : ℚ → ℚ`; the properties proved below rely
  only on its positivity where they rely on it at all, mirroring the real
  `exp`.
* External learned primitives that the specification places out of scope
  (LayerNorm, multi-head attention blocks, MLPs, grouped 1-D convolutions,
  the output projection) are abstract function fields of the module
  structures: any deterministic sequence-to-sequence map.  The grouping,
  routing, aggregation, reconstruction and orchestration logic — the part in
  scope — is embedded concretely from the source.
* Gumbel noise is an explicit argument (a sampled tensor), since the
  embedding is of one forward call at a given draw of the noise.
* Reverse-mode gradients of the straight-through estimator are modelled with
  forward-mode dual numbers `Dual` (value plus derivative with respect to one
  scalar parameter); `detach` zeroes the derivative component.
-/

namespace SegCLIP

/-- Batch-major 3-axis tensor `(d1, d2, d3)` with rational entries. -/
def Tensor (d1 d2 d3 : ℕ) : Type := Fin d1 → Fin d2 → Fin d3 → ℚ

/-- A sequence-to-sequence learned map on batch-major `(B, L, C)` tensors,
abstracting a stack of out-of-scope primitives (LayerNorm, self-attention
blocks, MLPs). -/
def SeqMap (C : ℕ) : Type := ∀ {B L : ℕ}, Tensor B L C → Tensor B L C

/-- A channel-major learned map on `(B, C, L)` tensors, abstracting the
grouped 1-D convolutions `k_conv` / `v_conv` (kernel size 1). -/
def ChanMap (C : ℕ) : Type := ∀ {B L : ℕ}, Tensor B C L → Tensor B C L

/-- A cross-attention block `CrossAttentionBlock`: query `(B, Lq, C)` and
key/value `(B, Lk, C)` to an updated query `(B, Lq, C)`; abstract because it
is built from out-of-scope attention primitives. -/
def CrossBlock (C : ℕ) : Type :=
  ∀ {B Lq Lk : ℕ}, Tensor B Lq C → Tensor B Lk C → Tensor B Lq C

/-- Softmax of a vector, with the host exponential `e` abstract:
`softmax(f) i = e (f i) / ∑ j, e (f j)`. -/
def softmaxVec {n : ℕ} (e : ℚ → ℚ) (f : Fin n → ℚ) : Fin n → ℚ :=
  fun i => e (f i) / ∑ j, e (f j)

/-- Index of the first maximal entry of `f` (the documented tie-break of the
host `max(dim)` reduction): a left fold keeping the current best index and
replacing it only on a strictly larger value. -/
def firstArgmax {n : ℕ} (f : Fin n → ℚ) (h : 0 < n) : Fin n :=
  (List.finRange n).foldl (fun best i => if f best < f i then i else best) ⟨0, h⟩

/-- Model of `gumbel_softmax` on one routing-axis slice (value semantics).
From the source: in training mode the sampled noise is added to the logits
and the sum divided by `tau` before the softmax; otherwise a plain softmax.
If `hard`, a one-hot at the arg-max of `y_soft` is built by `scatter_` and
`y_hard - y_soft.detach() + y_soft` is returned (`detach` is the identity on
values). -/
def gumbelSoftmaxVec {K : ℕ} (e : ℚ → ℚ) (logits : Fin K → ℚ) (tau : ℚ)
    (hard : Bool) (is_training : Bool) (noise : Fin K → ℚ) : Fin K → ℚ :=
  let y_soft : Fin K → ℚ :=
    if is_training then softmaxVec e (fun j => (logits j + noise j) / tau)
    else softmaxVec e logits
  if hard then
    fun n => (if n = firstArgmax y_soft n.pos then (1 : ℚ) else 0) - y_soft n + y_soft n
  else y_soft

/-- Model of `gumbel_softmax` applied along `dim = 1` of a `(B, K, L)` score tensor,
as called by the Semantic Learner. -/
def gumbel_softmax {B K L : ℕ} (e : ℚ → ℚ) (logits : Fin B → Fin K → Fin L → ℚ)
    (tau : ℚ) (hard : Bool) (is_training : Bool)
    (noise : Fin B → Fin K → Fin L → ℚ) : Fin B → Fin K → Fin L → ℚ :=
  fun b n l =>
    gumbelSoftmaxVec e (fun j => logits b j l) tau hard is_training
      (fun j => noise b j l) n

/-! ### Dual numbers: forward-mode derivative semantics for the
straight-through estimator. -/

/-- A scalar carrying its value and its derivative with respect to one scalar
parameter of the computation graph. -/
structure Dual where
  val : ℚ
  der : ℚ

instance : Zero Dual := ⟨⟨0, 0⟩⟩
instance : Add Dual := ⟨fun a b => ⟨a.val + b.val, a.der + b.der⟩⟩
instance : Sub Dual := ⟨fun a b => ⟨a.val - b.val, a.der - b.der⟩⟩

@[simp] theorem Dual.add_val (a b : Dual) : (a + b).val = a.val + b.val := rfl
@[simp] theorem Dual.add_der (a b : Dual) : (a + b).der = a.der + b.der := rfl
@[simp] theorem Dual.sub_val (a b : Dual) : (a - b).val = a.val - b.val := rfl
@[simp] theorem Dual.sub_der (a b : Dual) : (a - b).der = a.der - b.der := rfl

/-- A constant of the graph (no dependence on the parameter). -/
def Dual.const (c : ℚ) : Dual := ⟨c, 0⟩

/-- Model of `Tensor.detach`: same value, gradient blocked. -/
def Dual.detach (a : Dual) : Dual := ⟨a.val, 0⟩

/-- Quotient rule. -/
def Dual.div (a b : Dual) : Dual :=
  ⟨a.val / b.val, (a.der * b.val - a.val * b.der) / (b.val * b.val)⟩

@[simp] theorem Dual.const_val (c : ℚ) : (Dual.const c).val = c := rfl
@[simp] theorem Dual.const_der (c : ℚ) : (Dual.const c).der = 0 := rfl
@[simp] theorem Dual.detach_val (a : Dual) : a.detach.val = a.val := rfl
@[simp] theorem Dual.detach_der (a : Dual) : a.detach.der = 0 := rfl

/-- Sum of a `Fin`-indexed family of duals (componentwise). -/
def dsum {n : ℕ} (f : Fin n → Dual) : Dual :=
  ((List.finRange n).map f).foldr (· + ·) 0

/-- Softmax on duals, with the host exponential and its derivative action
abstracted as a single dual-valued map `E`. -/
def softmaxDual {n : ℕ} (E : Dual → Dual) (f : Fin n → Dual) : Fin n → Dual :=
  fun i => Dual.div (E (f i)) (dsum fun j => E (f j))

/-- Model of `gumbel_softmax` on one routing-axis slice under dual-number (autodiff)
semantics.  The sampled Gumbel noise and `tau` are graph constants; in the
`hard` branch the scatter-built one-hot is a constant, `y_soft.detach()` has
zero derivative, and the straight-through return is
`y_hard - y_soft.detach() + y_soft`. -/
def gumbelSoftmaxDualVec {K : ℕ} (E : Dual → Dual) (logits : Fin K → Dual)
    (tau : ℚ) (hard : Bool) (is_training : Bool) (noise : Fin K → ℚ) :
    Fin K → Dual :=
  let y_soft : Fin K → Dual :=
    if is_training then
      softmaxDual E (fun j => Dual.div (logits j + Dual.const (noise j)) (Dual.const tau))
    else softmaxDual E logits
  if hard then
    fun n =>
      Dual.const (if n = firstArgmax (fun j => (y_soft j).val) n.pos then (1 : ℚ) else 0)
        - Dual.detach (y_soft n) + y_soft n
  else y_soft

/-- Claim C1: in training mode `gumbel_softmax` forms the relaxed sample as
the softmax of `(logits + gumbel_noise) / tau` along the routing axis
(returned as-is when `hard` is off), and with `hard` on it returns
`one_hot - relaxed.detach + relaxed`: the value at every position is exactly
the one-hot indicator of the arg-max of the relaxed sample while the
derivative equals that of the relaxed softmax. -/
theorem gumbel_softmax_training_straight_through {K : ℕ} (E : Dual → Dual)
    (logits : Fin K → Dual) (tau : ℚ) (noise : Fin K → ℚ) (n : Fin K) :
    gumbelSoftmaxDualVec E logits tau false true noise
      = softmaxDual E (fun j => Dual.div (logits j + Dual.const (noise j)) (Dual.const tau))
    ∧ (gumbelSoftmaxDualVec E logits tau true true noise n).val
      = (if n = firstArgmax
            (fun j => ((softmaxDual E
              (fun j' => Dual.div (logits j' + Dual.const (noise j')) (Dual.const tau))) j).val)
            n.pos
         then (1 : ℚ) else 0)
    ∧ (gumbelSoftmaxDualVec E logits tau true true noise n).der
      = ((softmaxDual E
          (fun j => Dual.div (logits j + Dual.const (noise j)) (Dual.const tau))) n).der := by
  refine ⟨rfl, ?_, ?_⟩ <;> simp [gumbelSoftmaxDualVec]

/-! ### Semantic Learner Module -/

/-- Concatenation of two batch-major sequences along the length axis
(`torch.cat(..., dim=1)`). -/
def catLen {B L1 L2 C : ℕ} (t1 : Tensor B L1 C) (t2 : Tensor B L2 C) :
    Tensor B (L1 + L2) C :=
  fun b i c =>
    if h : (i : ℕ) < L1 then t1 b ⟨i, h⟩ c
    else t2 b ⟨i.val - L1, by have := i.isLt; omega⟩ c

/-- Structure `SemanticLearnerModule`: the learned semantic-center bank is concrete; the
out-of-scope primitives (input LayerNorm, the cross-attention refinement
stack, the post-refinement LayerNorm, the grouped key/value convolutions, the
key LayerNorm, and the output projection `ln → Mlp → QuickGELU`) are abstract
learned maps.  `e` is the host exponential used by the softmaxes. -/
structure SemanticLearnerModule (N C : ℕ) where
  e : ℚ → ℚ
  norm : SeqMap C
  semantic_center : Fin N → Fin C → ℚ
  cross_att : List (CrossBlock C)
  cross_ln : SeqMap C
  k_conv : ChanMap C
  k_ln : SeqMap C
  v_conv : ChanMap C
  proj_o : SeqMap C

/-- Computes `in_feature = self.norm(inputs).permute(0, 2, 1)`. -/
def SemanticLearnerModule.inFeature {N C : ℕ} (m : SemanticLearnerModule N C)
    {B L : ℕ} (inputs : Tensor B L C) : Tensor B C L :=
  fun b c l => m.norm inputs b l c

/-- The refined, normalized query set `q_feat`: the semantic-center bank
broadcast over the batch, refined by each cross-attention block against the
concatenation of the current queries with the raw inputs, then normalized by
`cross_ln`. -/
def SemanticLearnerModule.qFeat {N C : ℕ} (m : SemanticLearnerModule N C)
    {B L : ℕ} (inputs : Tensor B L C) : Tensor B N C :=
  m.cross_ln
    (m.cross_att.foldl (fun q f => f q (catLen q inputs))
      (fun _b n c => m.semantic_center n c))

/-- Computes `k_feat = self.k_ln(self.k_conv(in_feature).permute(0, 2, 1))`. -/
def SemanticLearnerModule.kFeat {N C : ℕ} (m : SemanticLearnerModule N C)
    {B L : ℕ} (inputs : Tensor B L C) : Tensor B L C :=
  m.k_ln (fun b l c => m.k_conv (m.inFeature inputs) b c l)

/-- Computes `v_feat = self.v_conv(in_feature).permute(0, 2, 1)`. -/
def SemanticLearnerModule.vFeat {N C : ℕ} (m : SemanticLearnerModule N C)
    {B L : ℕ} (inputs : Tensor B L C) : Tensor B L C :=
  fun b l c => m.v_conv (m.inFeature inputs) b c l

/-- Similarity scores `attn = einsum("...si,...di->...sd", q_feat, k_feat)`:
shape `(B, N, L)`. -/
def SemanticLearnerModule.attnScores {N C : ℕ} (m : SemanticLearnerModule N C)
    {B L : ℕ} (inputs : Tensor B L C) : Fin B → Fin N → Fin L → ℚ :=
  fun b s d => ∑ i, m.qFeat inputs b s i * m.kFeat inputs b d i

/-- The per-token normalizer of the aggregation step:
`torch.clamp_min(torch.sum(hard_attn, dim=-1), min=1.0)`. -/
def aggNormalizer {B N L : ℕ} (hard : Fin B → Fin N → Fin L → ℚ)
    (b : Fin B) (s : Fin N) : ℚ :=
  max (∑ i, hard b s i) 1

/-- The four tensors returned by `SemanticLearnerModule.forward`. -/
structure SLMResult (B N L C : ℕ) where
  outputs : Tensor B N C
  hard_attn : Fin B → Fin N → Fin L → ℚ
  soft_attn : Fin B → Fin N → Fin L → ℚ
  q_feat : Tensor B N C

/-- Model of `SemanticLearnerModule.forward`: similarity scores between the refined
queries and the projected keys, hard routing via `gumbel_softmax` with
`tau = 0.9, hard = True, dim = 1`, diagnostic soft routing via a plain
softmax along the same axis, aggregation of the projected values under the
hard routing normalized by the clamped per-token count, and the residual
output projection. -/
def SemanticLearnerModule.forward {N C : ℕ} (m : SemanticLearnerModule N C)
    {B L : ℕ} (training : Bool) (noise : Fin B → Fin N → Fin L → ℚ)
    (inputs : Tensor B L C) : SLMResult B N L C :=
  let q_feat := m.qFeat inputs
  let v_feat := m.vFeat inputs
  let attn := m.attnScores inputs
  let hard_attn := gumbel_softmax m.e attn (0.9 : ℚ) true training noise
  let soft_attn := fun b n d => softmaxVec m.e (fun j => attn b j d) n
  let agg := fun b s d =>
    (∑ i, hard_attn b s i * v_feat b i d) / aggNormalizer hard_attn b s
  { outputs := m.proj_o (fun b s d => q_feat b s d + agg b s d)
    hard_attn := hard_attn
    soft_attn := soft_attn
    q_feat := q_feat }

/-- A vector with entry `1` at exactly one index and `0` elsewhere. -/
def IsOneHot {n : ℕ} (v : Fin n → ℚ) : Prop :=
  ∃ i, v i = 1 ∧ ∀ j, j ≠ i → v j = 0

/-- Unfolding lemma: the `hard_attn` returned by the Semantic Learner is the
hard `gumbel_softmax` of the similarity scores along the token axis. -/
theorem slm_hard_attn_apply {N C B L : ℕ} (m : SemanticLearnerModule N C)
    (training : Bool) (noise : Fin B → Fin N → Fin L → ℚ)
    (inputs : Tensor B L C) (b : Fin B) (n : Fin N) (d : Fin L) :
    (m.forward training noise inputs).hard_attn b n d
      = gumbelSoftmaxVec m.e (fun j => m.attnScores inputs b j d) (0.9 : ℚ)
          true training (fun j => noise b j d) n := rfl

/-- The hard branch of `gumbel_softmax` at inference evaluates to the one-hot
indicator of the first arg-max of the plain softmax. -/
theorem gumbelSoftmaxVec_eval_inference {K : ℕ} (e : ℚ → ℚ)
    (logits : Fin K → ℚ) (tau : ℚ) (noise : Fin K → ℚ) (n : Fin K) :
    gumbelSoftmaxVec e logits tau true false noise n
      = if n = firstArgmax (softmaxVec e logits) n.pos then (1 : ℚ) else 0 := by
  simp [gumbelSoftmaxVec]

/-- The entries of a softmax sum to `1` over a nonempty axis, for a positive
host exponential. -/
theorem softmaxVec_sum_one {n : ℕ} (e : ℚ → ℚ) (f : Fin n → ℚ)
    (he : ∀ x, 0 < e x) (hn : 0 < n) :
    ∑ i, softmaxVec e f i = 1 := by
  unfold softmaxVec
  rw [← Finset.sum_div]
  exact div_self (ne_of_gt (Finset.sum_pos (fun i _ => he (f i))
    ⟨⟨0, hn⟩, Finset.mem_univ _⟩))

/-- Claim C2: at inference (`training = False`) with `hard = True`, the
`hard_attn` returned by `SemanticLearnerModule.forward` is exactly one-hot
along the token axis for every batch and patch position, the returned
`soft_attn` sums to `1` along the token axis for every patch position, and
the per-token normalizer of the aggregation step is never below `1`. -/
theorem semantic_learner_inference_routing {N C B L : ℕ}
    (m : SemanticLearnerModule N C) (noise : Fin B → Fin N → Fin L → ℚ)
    (inputs : Tensor B L C) (he : ∀ x, 0 < m.e x) (hN : 0 < N) :
    (∀ b d, IsOneHot (fun n => (m.forward false noise inputs).hard_attn b n d))
    ∧ (∀ b d, ∑ n, (m.forward false noise inputs).soft_attn b n d = 1)
    ∧ (∀ b s, 1 ≤ aggNormalizer (m.forward false noise inputs).hard_attn b s) := by
  refine ⟨fun b d => ?_, fun b d => ?_, fun b s => le_max_right _ _⟩
  · refine ⟨firstArgmax (softmaxVec m.e fun j => m.attnScores inputs b j d) hN, ?_, ?_⟩
    · show (m.forward false noise inputs).hard_attn b
        (firstArgmax (softmaxVec m.e fun j => m.attnScores inputs b j d) hN) d = 1
      rw [slm_hard_attn_apply, gumbelSoftmaxVec_eval_inference]
      simp
    · intro j hj
      show (m.forward false noise inputs).hard_attn b j d = 0
      rw [slm_hard_attn_apply, gumbelSoftmaxVec_eval_inference]
      simp [hj]
  · exact softmaxVec_sum_one m.e _ he hN

/-- Claim C3: in the aggregation step of `SemanticLearnerModule.forward` the
aggregated values `hard_attn @ value_sequence` are divided by the per-token
assignment count clamped to a minimum of exactly `1.0`; that clamped
normalizer is `max(count, 1)`, is at least `1`, equals exactly `1` for a
token with no assignment, and in particular is never `0`, so the division is
always defined. -/
theorem semantic_learner_aggregation_clamp {N C B L : ℕ}
    (m : SemanticLearnerModule N C) (training : Bool)
    (noise : Fin B → Fin N → Fin L → ℚ) (inputs : Tensor B L C) :
    ((m.forward training noise inputs).outputs
      = m.proj_o (fun b s d =>
          (m.forward training noise inputs).q_feat b s d
          + (∑ i, (m.forward training noise inputs).hard_attn b s i
                * m.vFeat inputs b i d)
            / aggNormalizer (m.forward training noise inputs).hard_attn b s))
    ∧ (∀ b s, aggNormalizer (m.forward training noise inputs).hard_attn b s
        = max (∑ i, (m.forward training noise inputs).hard_attn b s i) 1)
    ∧ (∀ b s, 1 ≤ aggNormalizer (m.forward training noise inputs).hard_attn b s)
    ∧ (∀ b s, (∑ i, (m.forward training noise inputs).hard_attn b s i) = 0 →
        aggNormalizer (m.forward training noise inputs).hard_attn b s = 1)
    ∧ (∀ b s, aggNormalizer (m.forward training noise inputs).hard_attn b s ≠ 0) := by
  refine ⟨rfl, fun b s => rfl, fun b s => le_max_right _ _, fun b s h => ?_, fun b s => ?_⟩
  · rw [aggNormalizer, h]
    exact max_eq_right zero_le_one
  · exact ne_of_gt (lt_of_lt_of_le one_pos (le_max_right _ _))

/-! ### Reconstruct Layer -/

/-- Computes `sigmoid(x) = 1 / (1 + e(-x))` with the host exponential `e` abstract. -/
def sigmoid (e : ℚ → ℚ) (x : ℚ) : ℚ := 1 / (1 + e (-x))

/-- Computes `QuickGELU(x) = x * sigmoid(1.702 * x)`. -/
def quickGELU (e : ℚ → ℚ) (x : ℚ) : ℚ := x * sigmoid e ((1.702 : ℚ) * x)

/-- Structure `ReconstructLayer`: `rec_proj_a` is a single learned linear layer
`Linear(in_channels, in_channels)` (weight `W`, bias `bias`) applied over the
token axis of the permuted routing map; `proj_o` is a `QuickGELU`
elementwise activation.  `out_channels` is stored at construction but not
used by `forward`.  `K` is `in_channels`. -/
structure ReconstructLayer (K : ℕ) where
  out_channels : ℕ
  W : Fin K → Fin K → ℚ
  bias : Fin K → ℚ
  e : ℚ → ℚ

/-- Model of `ReconstructLayer.forward`: permute `attn` from `(B, K, L)` to
`(B, L, K)`, apply the learned linear re-weighting over the `K` axis, then
contract with `inputs` via `einsum("...dh,...md->...mh")` and apply
`QuickGELU`.  The contraction requires `inputs` to have exactly `K` positions
along its length axis (the grouped tokens). -/
def ReconstructLayer.forward {K : ℕ} (rl : ReconstructLayer K) {B L C : ℕ}
    (inputs : Tensor B K C) (attn : Fin B → Fin K → Fin L → ℚ) :
    Tensor B L C :=
  let attnP : Fin B → Fin L → Fin K → ℚ := fun b l k => attn b k l
  let attnW : Fin B → Fin L → Fin K → ℚ :=
    fun b l k => (∑ j, attnP b l j * rl.W k j) + rl.bias k
  fun b m h => quickGELU rl.e (∑ d, inputs b d h * attnW b m d)

/-- Model of the `torch.einsum` contraction `"...dh,...md->...mh"` under the
host library's label-size rules: a labeled dimension is accepted when its
extent equals the extent already seen for that label or when either extent
is 1, in which case the size-1 dimension broadcasts (its index is pinned to
0, stride-0 expansion) and the contraction runs over the other extent.
Extents that differ with neither equal to 1 are a shape error, excluded here
by the compatibility hypothesis. -/
def einsumBcast {B L1 C L2 N : ℕ} (inputs : Tensor B L1 C)
    (attnW : Fin B → Fin L2 → Fin N → ℚ)
    (hcompat : L1 = N ∨ L1 = 1 ∨ N = 1) : Fin B → Fin L2 → Fin C → ℚ :=
  if hL1 : L1 = 1 then
    fun b m h => ∑ d : Fin N, inputs b ⟨0, by omega⟩ h * attnW b m d
  else if hN1 : N = 1 then
    fun b m h => ∑ d : Fin L1, inputs b d h * attnW b m ⟨0, by omega⟩
  else
    fun b m h => ∑ d : Fin L1, inputs b d h *
      attnW b m ⟨d.val, by
        have hd := d.isLt
        rcases hcompat with h1 | h1 | h1 <;> omega⟩

/-- Model of `ReconstructLayer.forward` under the host library's dynamic
shape semantics, for arbitrary operand shapes: the linear layer demands that
the last axis of the permuted routing map (of extent `N`) equal
`in_channels` exactly (`F.linear` does not broadcast its feature axis), and
the einsum contraction of the length axis of `inputs` (of extent `L1`)
against the projected token axis follows the broadcasting label-size rules
of `einsumBcast`; on any other mismatch the call fails (a shape error),
modelled as `none`. -/
def ReconstructLayer.forwardChecked {K : ℕ} (rl : ReconstructLayer K)
    {B L1 C N L2 : ℕ} (inputs : Tensor B L1 C)
    (attn : Fin B → Fin N → Fin L2 → ℚ) : Option (Tensor B L2 C) :=
  if h : N = K ∧ (L1 = K ∨ L1 = 1 ∨ K = 1) then
    let attnP : Fin B → Fin L2 → Fin N → ℚ := fun b l j => attn b j l
    let attnW : Fin B → Fin L2 → Fin K → ℚ :=
      fun b l k => (∑ j, attnP b l j * rl.W k (Fin.cast h.1 j)) + rl.bias k
    some (fun b m hc => quickGELU rl.e (einsumBcast inputs attnW h.2 b m hc))
  else none

/-- At the repository's call-site shapes (inputs of length `K`, routing map
with `K` tokens, all extents matching exactly so no broadcasting arises) the
dynamically-checked forward succeeds and computes
`ReconstructLayer.forward`. -/
theorem forwardChecked_exact {K B C L2 : ℕ} (rl : ReconstructLayer K)
    (inputs : Tensor B K C) (attn : Fin B → Fin K → Fin L2 → ℚ) :
    rl.forwardChecked inputs attn = some (rl.forward inputs attn) := by
  rw [ReconstructLayer.forwardChecked,
    dif_pos (⟨rfl, Or.inl rfl⟩ : K = K ∧ (K = K ∨ K = 1 ∨ K = 1))]
  simp only [Option.some.injEq]
  funext b m hc
  by_cases hK1 : K = 1
  · subst hK1
    simp [einsumBcast, ReconstructLayer.forward, Fin.cast_refl]
  · simp [einsumBcast, hK1, ReconstructLayer.forward, Fin.cast_refl]

/-- A concrete `ReconstructLayer` with `in_channels = 2` (matching the token
count `N = 2` of the routing map below) configured, as the claim requires,
with `out_channels = Len = 3`. -/
def rlC6 : ReconstructLayer 2 :=
  { out_channels := 3
    W := fun _ _ => 1
    bias := fun _ => 0
    e := fun _ => 1 }

/-- Concrete inputs of shape `(B, Len, C) = (1, 3, 1)`. -/
def inC6 : Tensor 1 3 1 := fun _ _ _ => 1

/-- Concrete routing map of shape `(B, N, Len) = (1, 2, 3)`. -/
def attnC6 : Fin 1 → Fin 2 → Fin 3 → ℚ := fun _ _ _ => 1

/-- Counterexample to claim C6 as stated: with `B = 1`, `Len = 3`, `N = 2`,
`C = 1` and the layer configured with `out_channels = Len = 3` and
`in_channels = N = 2` (so the linear over the token axis is well-formed),
`ReconstructLayer.forward` applied to inputs of shape `(B, Len, C)` and a
routing map of shape `(B, N, Len)` does not return a tensor at all: the
einsum contracts the length axis of `inputs` (extent 3) against the
linear-projected token axis (extent 2), and since the extents differ and
neither is 1 no broadcasting applies — a shape error. -/
theorem reconstruct_forward_shape_counterexample :
    (rlC6.forwardChecked inC6 attnC6).isSome = false := by
  decide

/-- Claim C6 (amended): `ReconstructLayer.forward` applied to inputs of
shape `(B, L1, C)` and a routing map of shape `(B, N, Len)`, with the layer
configured with `in_channels = N` (its `out_channels` plays no role),
returns a tensor of shape `(B, Len, C)` exactly when the contracted extents
are einsum-compatible — `L1 = N`, or `L1 = 1`, or `N = 1` (size-1
broadcasting) — and fails with a shape error otherwise.  In particular it
always returns `(B, Len, C)` in the repository's usage, where inputs are the
grouped tokens of shape `(B, N, C)`; there the algorithm permutes the
routing map, applies the single learned linear layer over the `N` axis,
contracts with the inputs over that axis, and applies `QuickGELU`. -/
theorem reconstruct_forward_shape {K B L1 C N L2 : ℕ} (rl : ReconstructLayer K)
    (inputs : Tensor B L1 C) (attn : Fin B → Fin N → Fin L2 → ℚ)
    (hK : N = K) (hcompat : L1 = K ∨ L1 = 1 ∨ K = 1) :
    (∃ out : Tensor B L2 C, rl.forwardChecked inputs attn = some out)
    ∧ (∀ (L3 N3 : ℕ) (inputs3 : Tensor B L3 C)
        (attn3 : Fin B → Fin N3 → Fin L2 → ℚ),
        ¬(N3 = K ∧ (L3 = K ∨ L3 = 1 ∨ K = 1)) →
          rl.forwardChecked inputs3 attn3 = none)
    ∧ (∀ (inputs2 : Tensor B K C) (attn2 : Fin B → Fin K → Fin L2 → ℚ),
        rl.forwardChecked inputs2 attn2 = some (rl.forward inputs2 attn2)
        ∧ ∀ b mIdx h, rl.forward inputs2 attn2 b mIdx h
            = quickGELU rl.e
                (∑ d, inputs2 b d h *
                  ((∑ j, attn2 b j mIdx * rl.W d j) + rl.bias d))) := by
  refine ⟨?_, fun L3 N3 inputs3 attn3 hbad => ?_, fun inputs2 attn2 => ?_⟩
  · rw [ReconstructLayer.forwardChecked, dif_pos ⟨hK, hcompat⟩]
    exact ⟨_, rfl⟩
  · rw [ReconstructLayer.forwardChecked, dif_neg hbad]
  · exact ⟨forwardChecked_exact rl inputs2 attn2, fun b mIdx h => rfl⟩

/-- Concrete grouped-token inputs of shape `(B, N, C) = (1, 2, 1)`, whose
length axis matches `in_channels = 2` of `rlC6`. -/
def inC6ok : Tensor 1 2 1 := fun _ _ _ => 1

/-- Witness for the amended claim C6: the shape-compatibility hypotheses
hold at the concrete layer `rlC6` with grouped inputs `(1, 2, 1)` and
routing map `(1, 2, 3)`, and the conclusion follows there. -/
theorem reconstruct_forward_shape_witness :
    (((2 : ℕ) = 2) ∧ ((2 : ℕ) = 2 ∨ (2 : ℕ) = 1 ∨ (2 : ℕ) = 1))
    ∧ ((∃ out : Tensor 1 3 1, rlC6.forwardChecked inC6ok attnC6 = some out)
      ∧ (∀ (L3 N3 : ℕ) (inputs3 : Tensor 1 L3 1)
          (attn3 : Fin 1 → Fin N3 → Fin 3 → ℚ),
          ¬(N3 = 2 ∧ (L3 = 2 ∨ L3 = 1 ∨ (2 : ℕ) = 1)) →
            rlC6.forwardChecked inputs3 attn3 = none)
      ∧ (∀ (inputs2 : Tensor 1 2 1) (attn2 : Fin 1 → Fin 2 → Fin 3 → ℚ),
          rlC6.forwardChecked inputs2 attn2 = some (rlC6.forward inputs2 attn2)
          ∧ ∀ b mIdx h, rlC6.forward inputs2 attn2 b mIdx h
              = quickGELU rlC6.e
                  (∑ d, inputs2 b d h *
                    ((∑ j, attn2 b j mIdx * rlC6.W d j) + rlC6.bias d)))) :=
  ⟨⟨rfl, Or.inl rfl⟩,
    reconstruct_forward_shape rlC6 inC6ok attnC6 rfl (Or.inl rfl)⟩

/-! ### SegViT orchestrator -/

/-- Model of `torch.max(x, dim)` over a length axis: the largest entry (first operand
of the fold is the first element; empty axis is junk, never reached by the
orchestrator on the grouped path since the token count is positive). -/
def finMaxQ {n : ℕ} (f : Fin n → ℚ) : ℚ :=
  match (List.finRange n).map f with
  | [] => 0
  | a :: l => l.foldl max a

/-- One recorded attention-map pair of the mid-state record. -/
structure AttnPair (B G L : ℕ) where
  hard_attn : Fin B → Fin G → Fin L → ℚ
  soft_attn : Fin B → Fin G → Fin L → ℚ

/-- The transient mid-state record of one `SegViT.forward` call. -/
structure MidStates (B G L C : ℕ) where
  hidden : Option (Tensor B L C)
  attns : List (AttnPair B G L)

/-- Structure `SegViT`: two abstract self-attention stacks around the grouping stage
(`layers0`, `layers2`), a separately-parameterized stack for the masked path
(`layers_mae2`), the Semantic Learner, and the Reconstruct Layer whose
`in_channels` is the group count. -/
structure SegViT (C G : ℕ) where
  patch_len : ℕ
  layers0 : SeqMap C
  layers2 : SeqMap C
  layers_mae2 : SeqMap C
  semantic_layer2 : SemanticLearnerModule G C
  reconstruct_layer2 : ReconstructLayer G

/-- Model of `SegViT.__init__`: `patch_len = input_resolution // patch_size`; the
Reconstruct Layer is built with `in_channels = group_num` and
`out_channels = dim_in` (the stage-2 layer width).  The layer stacks and the
Semantic Learner are taken as already-constructed components;
`first_stage_layer` and `cross_layer` only size those stacks. -/
def SegViT.init (dim_in patch_size input_resolution : ℕ)
    (_first_stage_layer _cross_layer : ℕ) (group_num : ℕ)
    (layers0 layers2 layers_mae2 : SeqMap dim_in)
    (slm : SemanticLearnerModule group_num dim_in)
    (recW : Fin group_num → Fin group_num → ℚ) (recBias : Fin group_num → ℚ)
    (recE : ℚ → ℚ) : SegViT dim_in group_num :=
  { patch_len := input_resolution / patch_size
    layers0 := layers0
    layers2 := layers2
    layers_mae2 := layers_mae2
    semantic_layer2 := slm
    reconstruct_layer2 :=
      { out_channels := dim_in, W := recW, bias := recBias, e := recE } }

/-- The branch condition of `SegViT.forward`:
`self.patch_len ** 2 != x_.size(1) and 4 * (self.patch_len ** 2) != x_.size(1)`
— the masked-reconstruction path is taken exactly when the observed
patch-sequence length matches neither expected square-grid size. -/
def takesMaskedPath {C G : ℕ} (m : SegViT C G) (L : ℕ) : Bool :=
  decide (m.patch_len ^ 2 ≠ L) && decide (4 * m.patch_len ^ 2 ≠ L)

/-- Model of `SegViT.forward` on a length-major input of `1 + L` positions (summary
token first).  A non-null attention mask raises `NotImplementedError`
(modelled as `Except.error ()`) before anything else runs.  Otherwise the
summary token is split off, stage-1 runs on the patches, and the
length-keyed branch either reconstructs from the grouped tokens (masked
path; summary token recomputed as the mean; no attention pair recorded) or
keeps the grouped tokens (direct path; summary token recomputed as the
element-wise max; the attention pair recorded).  The result is returned in
length-major layout together with the mid-state record. -/
def SegViT.forward {C G : ℕ} (m : SegViT C G) {B L : ℕ} (training : Bool)
    (noise : Fin B → Fin G → Fin L → ℚ) (attn_mask : Option Unit)
    (x : Fin (1 + L) → Fin B → Fin C → ℚ) :
    Except Unit ((Σ Lp : ℕ, Fin Lp → Fin B → Fin C → ℚ) × MidStates B G L C) :=
  let xN : Tensor B (1 + L) C := fun b l c => x l b c
  match attn_mask with
  | some _ => Except.error ()
  | none =>
    let x1 : Tensor B L C :=
      fun b i c => xN b ⟨1 + i.val, by have := i.isLt; omega⟩ c
    let x1 := m.layers0 x1
    if takesMaskedPath m L then
      let r := m.semantic_layer2.forward training noise x1
      let x2 := m.reconstruct_layer2.forward r.outputs r.hard_attn
      let x2 := m.layers_mae2 x2
      let cls2 : Tensor B 1 C := fun b _ c => (∑ i, x2 b i c) / (L : ℚ)
      let out := catLen cls2 x2
      Except.ok (⟨1 + L, fun l b c => out b l c⟩, ⟨some x2, []⟩)
    else
      let r := m.semantic_layer2.forward training noise x1
      let x2 := m.layers2 r.outputs
      let cls2 : Tensor B 1 C := fun b _ c => finMaxQ (fun g => x2 b g c)
      let out := catLen cls2 x2
      Except.ok (⟨1 + G, fun l b c => out b l c⟩,
        ⟨some x1, [⟨r.hard_attn, r.soft_attn⟩]⟩)

/-- The length of the sequence returned by a `SegViT.forward` call, when the
call succeeded. -/
def outLen {C G B L : ℕ}
    (r : Except Unit ((Σ Lp : ℕ, Fin Lp → Fin B → Fin C → ℚ) × MidStates B G L C)) :
    Option ℕ :=
  match r with
  | Except.error _ => none
  | Except.ok p => some p.1.1

/-- Claim C4: for a `SegViT` configured with `input_resolution = 224` and
`patch_size = 16` (so `patch_len = 14`), the masked-reconstruction path is
taken if and only if the observed patch-sequence length is neither
`196 = patch_len²` nor `784 = 4·patch_len²` (so for instance length 150
takes it and 196 and 784 do not), and `SegViT.forward` succeeds on a null
mask with an output sequence whose length is `1 + Len` on the masked path
and `1 + group_num` on the direct path — the branch depends only on this
length comparison. -/
theorem segvit_branch_selection (dim_in fsl cl gn : ℕ)
    (l0 l2 lm : SeqMap dim_in) (slm : SemanticLearnerModule gn dim_in)
    (recW : Fin gn → Fin gn → ℚ) (recBias : Fin gn → ℚ) (recE : ℚ → ℚ) :
    (∀ Len, takesMaskedPath (SegViT.init dim_in 16 224 fsl cl gn l0 l2 lm slm recW recBias recE) Len = true
        ↔ (Len ≠ 196 ∧ Len ≠ 784))
    ∧ (∀ (B Len : ℕ) (x : Fin (1 + Len) → Fin B → Fin dim_in → ℚ)
        (noise : Fin B → Fin gn → Fin Len → ℚ) (training : Bool),
        outLen ((SegViT.init dim_in 16 224 fsl cl gn l0 l2 lm slm recW recBias
            recE).forward training noise none x)
          = some (if takesMaskedPath (SegViT.init dim_in 16 224 fsl cl gn l0 l2 lm slm recW recBias recE) Len
                  then 1 + Len else 1 + gn)) := by
  constructor
  · intro Len
    show (decide ((224 / 16 : ℕ) ^ 2 ≠ Len) && decide (4 * (224 / 16 : ℕ) ^ 2 ≠ Len)) = true
      ↔ (Len ≠ 196 ∧ Len ≠ 784)
    norm_num
    omega
  · intro B Len x noise training
    cases htm : takesMaskedPath (SegViT.init dim_in 16 224 fsl cl gn l0 l2 lm slm recW recBias recE) Len <;>
      simp [SegViT.forward, outLen, htm]

/-- Claim C5: with `first_stage_layer = 10` and `group_num = 8` (the
configuration of the source's usage example, `dim_in = 768`, `patch_size =
16`, `input_resolution = 224`), a length-major input of shape
`(197, 2, 768)` makes `SegViT.forward` return a length-major output of shape
`(9, 2, 768)` — one summary token plus the 8 grouped tokens, channel count
unchanged — together with a mid-state record holding exactly one
attention-map pair, whose `hard_attn` and `soft_attn` have shape
`(2, 8, 196)` (the type of `MidStates 2 8 196 768`). -/
theorem segvit_end_to_end (l0 l2 lm : SeqMap 768)
    (slm : SemanticLearnerModule 8 768) (recW : Fin 8 → Fin 8 → ℚ)
    (recBias : Fin 8 → ℚ) (recE : ℚ → ℚ)
    (x : Fin 197 → Fin 2 → Fin 768 → ℚ)
    (noise : Fin 2 → Fin 8 → Fin 196 → ℚ) (training : Bool) :
    ∃ (out : Fin 9 → Fin 2 → Fin 768 → ℚ) (ms : MidStates 2 8 196 768),
      (SegViT.init 768 16 224 10 2 8 l0 l2 lm slm recW recBias recE).forward
          training noise none x = Except.ok (⟨9, out⟩, ms)
      ∧ ms.attns.length = 1 := by
  have htm : takesMaskedPath
      (SegViT.init 768 16 224 10 2 8 l0 l2 lm slm recW recBias recE) 196 = false := rfl
  simp only [SegViT.forward, htm, Bool.false_eq_true, if_false]
  exact ⟨_, _, rfl, rfl⟩

/-- Claim C8: `SegViT.forward` fails with the not-implemented signal exactly
when the attention-mask argument is non-null; with a non-null mask the
result is the error for every module (so the failure happens before any
grouping computation runs), and with a null mask the forward pass completes
and returns a value. -/
theorem segvit_mask_not_implemented {Cd G B L : ℕ} (m : SegViT Cd G)
    (training : Bool) (noise : Fin B → Fin G → Fin L → ℚ)
    (x : Fin (1 + L) → Fin B → Fin Cd → ℚ) :
    (∀ mask, m.forward training noise mask x = Except.error () ↔ mask ≠ none)
    ∧ (∀ u (m2 : SegViT Cd G),
        m.forward training noise (some u) x = m2.forward training noise (some u) x)
    ∧ (∃ r, m.forward training noise none x = Except.ok r) := by
  refine ⟨fun mask => ?_, fun u m2 => rfl, ?_⟩
  · cases mask with
    | none =>
      cases htm : takesMaskedPath m L <;> simp [SegViT.forward, htm]
    | some u => simp [SegViT.forward]
  · rcases h : m.forward training noise none x with e | r
    · exfalso
      revert h
      cases htm : takesMaskedPath m L <;> simp [SegViT.forward, htm]
    · exact ⟨r, rfl⟩

/-- Claim C7: at inference (`training = False`) no stochastic sampling is
consumed: both `SemanticLearnerModule.forward` and `SegViT.forward` return
the same value for any two draws of the Gumbel noise (all remaining
components being deterministic functions of the input and the parameters),
so the forward pass is a deterministic function of input and parameters. -/
theorem inference_noise_independent {N Cd B L : ℕ}
    (m : SemanticLearnerModule N Cd) (inputs : Tensor B L Cd)
    {Cd2 G B2 L2 : ℕ} (mv : SegViT Cd2 G) (mask : Option Unit)
    (x : Fin (1 + L2) → Fin B2 → Fin Cd2 → ℚ) :
    (∀ noise1 noise2 : Fin B → Fin N → Fin L → ℚ,
        m.forward false noise1 inputs = m.forward false noise2 inputs)
    ∧ (∀ noise1 noise2 : Fin B2 → Fin G → Fin L2 → ℚ,
        mv.forward false noise1 mask x = mv.forward false noise2 mask x) :=
  ⟨fun _ _ => rfl, fun _ _ => rfl⟩

/-- State-threading form of `SemanticLearnerModule.forward`: the module after
the call.  Every tensor operation of the source forward allocates fresh
tensors (the one in-place op, `scatter_`, targets a tensor freshly created by
`zeros_like`), so the post-call module equals the pre-call module. -/
def SemanticLearnerModule.forwardSt {N C : ℕ} (m : SemanticLearnerModule N C)
    {B L : ℕ} (training : Bool) (noise : Fin B → Fin N → Fin L → ℚ)
    (inputs : Tensor B L C) : SLMResult B N L C × SemanticLearnerModule N C :=
  (m.forward training noise inputs, m)

/-- State-threading form of `SegViT.forward`: the module after the call. -/
def SegViT.forwardSt {C G : ℕ} (m : SegViT C G) {B L : ℕ} (training : Bool)
    (noise : Fin B → Fin G → Fin L → ℚ) (attn_mask : Option Unit)
    (x : Fin (1 + L) → Fin B → Fin C → ℚ) :
    Except Unit ((Σ Lp : ℕ, Fin Lp → Fin B → Fin C → ℚ) × MidStates B G L C)
      × SegViT C G :=
  (m.forward training noise attn_mask x, m)

/-- Claim C9: a forward pass never mutates a learned parameter: the module
state after a `SegViT.forward` call (and after a
`SemanticLearnerModule.forward` call) equals the state before it — in
particular the semantic center bank is unchanged — so state can change
across calls only through the external optimizer. -/
theorem forward_preserves_parameters {N Cd B L : ℕ}
    (m : SemanticLearnerModule N Cd) (training : Bool)
    (noise : Fin B → Fin N → Fin L → ℚ) (inputs : Tensor B L Cd)
    {Cd2 G B2 L2 : ℕ} (mv : SegViT Cd2 G) (training2 : Bool)
    (noise2 : Fin B2 → Fin G → Fin L2 → ℚ) (mask : Option Unit)
    (x : Fin (1 + L2) → Fin B2 → Fin Cd2 → ℚ) :
    ((m.forwardSt training noise inputs).2 = m)
    ∧ ((mv.forwardSt training2 noise2 mask x).2 = mv)
    ∧ ((mv.forwardSt training2 noise2 mask x).2.semantic_layer2.semantic_center
        = mv.semantic_layer2.semantic_center) :=
  ⟨rfl, rfl, rfl⟩

/-- First position of a concatenation `cat([cls, x_], dim=1)`. -/
theorem catLen_head {B L C : ℕ} (t1 : Tensor B 1 C) (t2 : Tensor B L C)
    (b : Fin B) (c : Fin C) (h : (0 : ℕ) < 1 + L) :
    catLen t1 t2 b ⟨0, h⟩ c = t1 b ⟨0, one_pos⟩ c := by
  simp [catLen]

/-- Later positions of a concatenation `cat([cls, x_], dim=1)`. -/
theorem catLen_tail {B L C : ℕ} (t1 : Tensor B 1 C) (t2 : Tensor B L C)
    (b : Fin B) (c : Fin C) (i : Fin L) (h : 1 + i.val < 1 + L) :
    catLen t1 t2 b ⟨1 + i.val, h⟩ c = t2 b i c := by
  have hval : ¬((⟨1 + i.val, h⟩ : Fin (1 + L)).val < 1) := by
    show ¬(1 + i.val < 1)
    omega
  rw [catLen, dif_neg hval]
  exact congrFun (congrArg (t2 b)
    (Fin.ext (show 1 + i.val - 1 = i.val by omega))) c

/-- Claim C10: on the masked-reconstruction path (patch-sequence length `L`
matching neither expected grid size) `SegViT.forward` returns a sequence of
length `1 + L`: the Reconstruct Layer expands the grouped tokens to exactly
the observed length `L` — the last axis of the routing map — so the output
length equals the input length (not `1 + group_num`, not
`1 + patch_len²`), and the summary token at position 0 equals the mean of
the `L` reconstructed positions that follow it. -/
theorem segvit_masked_path_reconstruction {Cd G B L : ℕ} (m : SegViT Cd G)
    (training : Bool) (noise : Fin B → Fin G → Fin L → ℚ)
    (x : Fin (1 + L) → Fin B → Fin Cd → ℚ)
    (h1 : m.patch_len ^ 2 ≠ L) (h2 : 4 * m.patch_len ^ 2 ≠ L) :
    ∃ (out : Fin (1 + L) → Fin B → Fin Cd → ℚ) (ms : MidStates B G L Cd),
      m.forward training noise none x = Except.ok (⟨1 + L, out⟩, ms)
      ∧ ∀ b c, out ⟨0, by omega⟩ b c
          = (∑ i : Fin L, out ⟨1 + i.val, by have := i.isLt; omega⟩ b c) / (L : ℚ) := by
  have htm : takesMaskedPath m L = true := by
    simp only [takesMaskedPath, Bool.and_eq_true, decide_eq_true_eq]
    exact ⟨h1, h2⟩
  simp only [SegViT.forward, htm, if_true]
  refine ⟨_, _, rfl, fun b c => ?_⟩
  rw [catLen_head]
  exact congrArg (fun s => s / (L : ℚ))
    (Finset.sum_congr rfl fun i _ => (catLen_tail _ _ b c i _).symm)

/-! ### Concrete instances used by the witnesses -/

/-- Identity sequence map (a concrete instance of an abstract learned
stack). -/
def idSeqMap {C : ℕ} : SeqMap C := fun {_B _L} t => t

/-- Identity channel-major map (a concrete instance of an abstract grouped
convolution). -/
def idChanMap {C : ℕ} : ChanMap C := fun {_B _L} t => t

/-- A concrete Semantic Learner with 2 tokens and 1 channel; its host
exponential is the constant 1 (positive everywhere). -/
def slmTiny : SemanticLearnerModule 2 1 :=
  { e := fun _ => 1
    norm := idSeqMap
    semantic_center := fun _ _ => 0
    cross_att := []
    cross_ln := idSeqMap
    k_conv := idChanMap
    k_ln := idSeqMap
    v_conv := idChanMap
    proj_o := idSeqMap }

/-- Witness for claim C2: the hypotheses of
`semantic_learner_inference_routing` hold at the concrete module `slmTiny`
with a `(1, 1, 1)` input, and the conclusion follows there. -/
theorem semantic_learner_inference_routing_witness :
    ((∀ x : ℚ, 0 < slmTiny.e x) ∧ (0 < 2))
    ∧ ((∀ b d, IsOneHot (fun n =>
          (slmTiny.forward false (fun _ _ _ => 0) (fun _ _ _ => 0)
            : SLMResult 1 2 1 1).hard_attn b n d))
      ∧ (∀ b d, ∑ n, (slmTiny.forward false (fun _ _ _ => 0) (fun _ _ _ => 0)
            : SLMResult 1 2 1 1).soft_attn b n d = 1)
      ∧ (∀ b s, 1 ≤ aggNormalizer
          (slmTiny.forward false (fun _ _ _ => 0) (fun _ _ _ => 0)
            : SLMResult 1 2 1 1).hard_attn b s)) :=
  ⟨⟨fun _x => one_pos, by decide⟩,
    semantic_learner_inference_routing slmTiny (fun _ _ _ => 0) (fun _ _ _ => 0)
      (fun _x => one_pos) (by decide)⟩

/-- A concrete `SegViT` with 1 channel and 2 groups, configured with
`patch_size = 16` and `input_resolution = 224` (so `patch_len = 14`). -/
def segvitTiny : SegViT 1 2 :=
  SegViT.init 1 16 224 10 2 2 idSeqMap idSeqMap idSeqMap slmTiny
    (fun _ _ => 1) (fun _ => 0) (fun _ => 1)

/-- Witness for claim C10: a patch-sequence length of 2 matches neither
expected grid size of `segvitTiny`, and the masked-path conclusion follows
there. -/
theorem segvit_masked_path_reconstruction_witness :
    (segvitTiny.patch_len ^ 2 ≠ 2 ∧ 4 * segvitTiny.patch_len ^ 2 ≠ 2)
    ∧ ∃ (out : Fin (1 + 2) → Fin 1 → Fin 1 → ℚ) (ms : MidStates 1 2 2 1),
        segvitTiny.forward false (fun _ _ _ => 0) none (fun _ _ _ => 0)
          = Except.ok (⟨1 + 2, out⟩, ms)
        ∧ ∀ b c, out ⟨0, by omega⟩ b c
            = (∑ i : Fin 2, out ⟨1 + i.val, by have := i.isLt; omega⟩ b c)
              / ((2 : ℕ) : ℚ) :=
  ⟨⟨by decide, by decide⟩,
    segvit_masked_path_reconstruction segvitTiny false (fun _ _ _ => 0)
      (fun _ _ _ => 0) (by decide) (by decide)⟩

end SegCLIP
